import Mathlib

/-!
Verification of behavioural properties of the gnsq NSQ client library.

The definitions below are shallow embeddings of the Python source:

* `Gnsq.Message` and its `finish` / `requeue` / `touch` operations embed
  `gnsq/message.py` (the `_has_responded` flag and the "already responded"
  error raised by each method).
* `Gnsq.ProducerSession` and its event step function embed the per-connection
  response bookkeeping of `gnsq/producer.py` (`publish` appending an
  `AsyncResult` to `_response_queues[conn]`, `handle_response` popping the
  head of that deque on an `OK` frame, and `handle_error` /
  `_clear_responses` failing every pending result).
* The RDY redistribution functions embed
  `Consumer._get_unsaturated_ready_state`, `Consumer._get_saturated_ready_state`
  and the regime selection in `Consumer._redistribute_ready_state` of
  `gnsq/consumer.py`.

Python dictionaries are embedded as association lists with first-match
lookup and in-place overwrite; `random.shuffle` and `random.sample` are
embedded by quantifying over an arbitrary permutation / arbitrary subset of
the right size.
-/

namespace Gnsq

/-! ## Message (gnsq/message.py)

A message received from nsqd.  `has_responded` embeds the `_has_responded`
attribute, initialised to `False` by `Message.__init__`.  The blinker
signals (`on_finish`, `on_requeue`, `on_touch`) are side effects outside the
state relevant here and are not modelled. -/

structure Message where
  timestamp : Nat
  attempts : Nat
  id : String
  body : String
  has_responded : Bool
  is_async : Bool
  deriving Repr, DecidableEq

/-- Embeds `Message.__init__`: `_has_responded = False`, `_is_async = False`. -/
def Message.init (timestamp attempts : Nat) (id body : String) : Message :=
  { timestamp := timestamp, attempts := attempts, id := id, body := body
    has_responded := false, is_async := false }

/-- Embeds `Message.finish`: raises `NSQException('already responded')` when
`_has_responded` is set, otherwise sets `_has_responded = True`. -/
def Message.finish (m : Message) : Except String Message :=
  if m.has_responded then .error "already responded"
  else .ok { m with has_responded := true }

/-- Embeds `Message.requeue`: raises `NSQException('already responded')` when
`_has_responded` is set, otherwise sets `_has_responded = True`.  The
`time_ms` and `backoff` arguments only feed the emitted signal. -/
def Message.requeue (m : Message) (time_ms : Nat) (backoff : Bool) :
    Except String Message :=
  if m.has_responded then .error "already responded"
  else .ok { m with has_responded := true }

/-- Embeds `Message.touch`: raises `NSQException('already responded')` when
`_has_responded` is set, otherwise leaves the message state unchanged. -/
def Message.touch (m : Message) : Except String Message :=
  if m.has_responded then .error "already responded"
  else .ok m

/-- A call made on a message: one of the three response methods. -/
inductive MsgAction where
  | finish : MsgAction
  | requeue (time_ms : Nat) (backoff : Bool) : MsgAction
  | touch : MsgAction
  deriving Repr, DecidableEq

/-- Only `finish` and `requeue` are the terminal responses; `touch` is not. -/
def MsgAction.isTerminal : MsgAction → Bool
  | .finish => true
  | .requeue _ _ => true
  | .touch => false

/-- Dispatch one call on a message. -/
def Message.apply (m : Message) (a : MsgAction) : Except String Message :=
  match a with
  | .finish => m.finish
  | .requeue t b => m.requeue t b
  | .touch => m.touch

/-- Run a sequence of calls on a message, recording each call's outcome.
A raised exception propagates to the caller and leaves the message state
unchanged (the Python methods raise before any mutation). -/
def Message.run (m : Message) : List MsgAction → List (Except String Message)
  | [] => []
  | a :: rest =>
    match m.apply a with
    | .ok m' => .ok m' :: m'.run rest
    | .error e => .error e :: m.run rest

/-- A successful terminal response at one position of a zipped
action/outcome trace. -/
def terminalOk (p : MsgAction × Except String Message) : Bool :=
  p.1.isTerminal && p.2.toBool

example :
    (Message.init 0 0 "a" "b").run [.touch, .finish, .finish] =
      [.ok (Message.init 0 0 "a" "b"),
       .ok { Message.init 0 0 "a" "b" with has_responded := true },
       .error "already responded"] := rfl

example :
    (([MsgAction.touch, .requeue 5 true, .touch, .finish].zip
        ((Message.init 0 0 "a" "b").run
          [.touch, .requeue 5 true, .touch, .finish])).filter terminalOk).length
      = 1 := rfl

/-- Position `i` of the trace holds a terminal call that succeeded. -/
def terminalOkAt (as : List MsgAction) (rs : List (Except String Message))
    (i : Nat) : Prop :=
  ∃ a r, as[i]? = some a ∧ rs[i]? = some r ∧
    a.isTerminal = true ∧ r.toBool = true

theorem Message.run_length (m : Message) :
    ∀ as : List MsgAction, (m.run as).length = as.length := by
  intro as
  induction as generalizing m with
  | nil => rfl
  | cons a rest ih =>
    cases hres : m.apply a <;> simp [Message.run, hres, ih]

theorem Message.run_responded (m : Message) (h : m.has_responded = true) :
    ∀ as : List MsgAction,
      m.run as = as.map (fun _ => .error "already responded") := by
  intro as
  induction as generalizing m with
  | nil => rfl
  | cons a rest ih =>
    cases a <;>
      simp [Message.run, Message.apply, Message.finish, Message.requeue,
        Message.touch, h, ih m h]

theorem filter_terminalOk_errors (e : String) :
    ∀ as : List MsgAction,
      ((as.zip (as.map fun _ => (.error e : Except String Message))).filter
        terminalOk) = []
  | [] => rfl
  | a :: rest => by
    simp only [List.map_cons, List.zip_cons_cons, List.filter_cons]
    rw [show terminalOk (a, (.error e : Except String Message)) = false by
      simp [terminalOk, Except.toBool]]
    simpa using filter_terminalOk_errors e rest

theorem run_cons_touch (m : Message) (h : m.has_responded = false)
    (rest : List MsgAction) :
    m.run (.touch :: rest) = .ok m :: m.run rest := by
  simp [Message.run, Message.apply, Message.touch, h]

theorem run_cons_finish (m : Message) (h : m.has_responded = false)
    (rest : List MsgAction) :
    m.run (.finish :: rest) = .ok { m with has_responded := true } ::
      rest.map (fun _ => .error "already responded") := by
  simp [Message.run, Message.apply, Message.finish, h,
    Message.run_responded { m with has_responded := true } rfl rest]

theorem run_cons_requeue (m : Message) (h : m.has_responded = false)
    (t : Nat) (b : Bool) (rest : List MsgAction) :
    m.run (.requeue t b :: rest) = .ok { m with has_responded := true } ::
      rest.map (fun _ => .error "already responded") := by
  simp [Message.run, Message.apply, Message.requeue, h,
    Message.run_responded { m with has_responded := true } rfl rest]

theorem count_terminalOk_le_one (m : Message) (h : m.has_responded = false) :
    ∀ as : List MsgAction,
      ((as.zip (m.run as)).filter terminalOk).length ≤ 1 := by
  intro as
  induction as generalizing m with
  | nil => simp [Message.run]
  | cons a rest ih =>
    cases a with
    | touch =>
      rw [run_cons_touch m h rest]
      simp only [List.zip_cons_cons, List.filter_cons]
      rw [show terminalOk (MsgAction.touch, (.ok m : Except String Message))
        = false from rfl]
      simpa using ih m h
    | finish =>
      rw [run_cons_finish m h rest]
      simp only [List.zip_cons_cons, List.filter_cons]
      rw [show terminalOk (MsgAction.finish,
        (.ok { m with has_responded := true } : Except String Message))
        = true from rfl]
      rw [if_pos rfl, filter_terminalOk_errors "already responded" rest]
      simp
    | requeue t b =>
      rw [run_cons_requeue m h t b rest]
      simp only [List.zip_cons_cons, List.filter_cons]
      rw [show terminalOk (MsgAction.requeue t b,
        (.ok { m with has_responded := true } : Except String Message))
        = true from rfl]
      rw [if_pos rfl, filter_terminalOk_errors "already responded" rest]
      simp

theorem terminalOkAt_cons (a : MsgAction) (r : Except String Message)
    (as : List MsgAction) (rs : List (Except String Message)) (i : Nat) :
    terminalOkAt (a :: as) (r :: rs) (i + 1) ↔ terminalOkAt as rs i := by
  simp [terminalOkAt]

theorem after_terminal_error (m : Message) :
    ∀ (as : List MsgAction) (i j : Nat), i < j → j < as.length →
      terminalOkAt as (m.run as) i →
      (m.run as)[j]? = some (.error "already responded") := by
  intro as
  induction as generalizing m with
  | nil => intro i j _ hj _; simp at hj
  | cons a rest ih =>
    intro i j hij hj hterm
    by_cases hresp : m.has_responded = true
    · exfalso
      rw [Message.run_responded m hresp] at hterm
      obtain ⟨a', r, _, hr, _, hok⟩ := hterm
      simp only [List.getElem?_map] at hr
      cases has : (a :: rest)[i]? with
      | none => rw [has] at hr; simp at hr
      | some x =>
        rw [has] at hr
        simp at hr
        rw [← hr] at hok
        simp [Except.toBool] at hok
    · have hresp' : m.has_responded = false := by
        cases hv : m.has_responded
        · rfl
        · exact absurd hv hresp
      obtain ⟨j', rfl⟩ : ∃ j', j = j' + 1 :=
        ⟨j - 1, by omega⟩
      cases a with
      | touch =>
        rw [run_cons_touch m hresp' rest] at hterm ⊢
        obtain ⟨i', rfl⟩ : ∃ i', i = i' + 1 := by
          cases i with
          | zero =>
            exfalso
            obtain ⟨a', r, ha, _, haT, _⟩ := hterm
            simp only [List.getElem?_cons_zero, Option.some.injEq] at ha
            rw [← ha] at haT
            simp [MsgAction.isTerminal] at haT
          | succ i' => exact ⟨i', rfl⟩
        rw [terminalOkAt_cons] at hterm
        simp only [List.getElem?_cons_succ]
        exact ih m i' j' (by omega) (by simpa using hj) hterm
      | finish =>
        rw [run_cons_finish m hresp' rest]
        simp only [List.getElem?_cons_succ, List.getElem?_map]
        have hj' : j' < rest.length := by simpa using hj
        simp [List.getElem?_eq_getElem hj']
      | requeue t b =>
        rw [run_cons_requeue m hresp' t b rest]
        simp only [List.getElem?_cons_succ, List.getElem?_map]
        have hj' : j' < rest.length := by simpa using hj
        simp [List.getElem?_eq_getElem hj']

theorem touch_before_terminal_ok (m : Message) (h : m.has_responded = false) :
    ∀ (as : List MsgAction) (j : Nat), as[j]? = some .touch →
      (∀ i, i < j → ¬ terminalOkAt as (m.run as) i) →
      (m.run as)[j]? = some (.ok m) := by
  intro as
  induction as generalizing m with
  | nil => intro j hjt _; simp at hjt
  | cons a rest ih =>
    intro j hjt hpre
    cases j with
    | zero =>
      simp only [List.getElem?_cons_zero, Option.some.injEq] at hjt
      subst hjt
      rw [run_cons_touch m h rest]
      simp
    | succ j' =>
      cases a with
      | touch =>
        rw [run_cons_touch m h rest] at hpre ⊢
        simp only [List.getElem?_cons_succ]
        refine ih m h j' (by simpa using hjt) ?_
        intro i hi hterm
        exact hpre (i + 1) (by omega)
          ((terminalOkAt_cons _ _ _ _ _).mpr hterm)
      | finish =>
        exfalso
        refine hpre 0 (by omega) ?_
        refine ⟨.finish, .ok { m with has_responded := true }, by simp, ?_,
          rfl, rfl⟩
        rw [run_cons_finish m h rest]
        simp
      | requeue t b =>
        exfalso
        refine hpre 0 (by omega) ?_
        refine ⟨.requeue t b, .ok { m with has_responded := true }, by simp,
          ?_, rfl, rfl⟩
        rw [run_cons_requeue m h t b rest]
        simp

/-- C2: for every message, at most one terminal response (finish or requeue)
succeeds; after a successful terminal response every further `finish`,
`requeue` or `touch` call fails with the "already responded" error; and a
`touch` strictly before the terminal response succeeds (leaving the message
unresponded). -/
theorem message_single_terminal_response (ts att : Nat) (mid body : String)
    (as : List MsgAction) :
    ((as.zip ((Message.init ts att mid body).run as)).filter
        terminalOk).length ≤ 1 ∧
    (∀ i j, i < j → j < as.length →
      terminalOkAt as ((Message.init ts att mid body).run as) i →
      ((Message.init ts att mid body).run as)[j]? =
        some (.error "already responded")) ∧
    (∀ j, as[j]? = some .touch →
      (∀ i, i < j →
        ¬ terminalOkAt as ((Message.init ts att mid body).run as) i) →
      ((Message.init ts att mid body).run as)[j]? =
        some (.ok (Message.init ts att mid body))) := by
  refine ⟨count_terminalOk_le_one _ rfl as, ?_, ?_⟩
  · intro i j hij hj hterm
    exact after_terminal_error _ as i j hij hj hterm
  · intro j hjt hpre
    exact touch_before_terminal_ok _ rfl as j hjt hpre

/-- Witness for C2 at a concrete trace: after a successful `finish`, the
following `touch` fails with "already responded". -/
theorem message_single_terminal_response_witness :
    ((Message.init 0 0 "m" "b").run [.finish, .touch])[1]? =
      some (.error "already responded") :=
  (message_single_terminal_response 0 0 "m" "b" [.finish, .touch]).2.1 0 1
    (by omega) (by simp)
    ⟨.finish, .ok { Message.init 0 0 "m" "b" with has_responded := true },
      by simp, by simp [Message.run, Message.apply, Message.finish,
        Message.init], rfl, rfl⟩

/-! ## Producer response bookkeeping (gnsq/producer.py)

Per connection, `Producer` keeps `_response_queues[conn]`, a deque of
`AsyncResult` promises.  `publish` appends a fresh promise and sends the
command; `handle_response` on an `OK` frame does
`result = self._response_queues[conn].popleft(); result.set(response)`;
`handle_error` calls `_clear_responses`, which pops the whole queue and
calls `result.set_exception(error)` on every pending promise.

Promises are embedded as sequential naturals (`next_promise` numbers the
publishes on the session in order), so publish order on the session is the
numeric order.  `resolved` records, in resolution order, each promise
together with how it was resolved. -/

/-- How a promise was resolved: `AsyncResult.set` on an `OK` response, or
`AsyncResult.set_exception` from `_clear_responses`. -/
inductive PromiseResult where
  | ok : PromiseResult
  | failed : PromiseResult
  deriving Repr, DecidableEq

/-- The response bookkeeping of one producer connection: the pending FIFO
deque, the resolution log, and the number of publishes so far. -/
structure ProducerSession where
  queue : List Nat
  resolved : List (Nat × PromiseResult)
  next_promise : Nat
  deriving Repr, DecidableEq

/-- Events affecting one session's response queue. -/
inductive ProducerEvent where
  | publish : ProducerEvent
  | okFrame : ProducerEvent
  | errorFrame : ProducerEvent
  deriving Repr, DecidableEq

/-- A fresh connection: `handle_connection_success` installs an empty
deque. -/
def ProducerSession.init : ProducerSession :=
  { queue := [], resolved := [], next_promise := 0 }

/-- One step of the session.

* `publish` (`Producer.publish`): append a fresh promise to the deque,
  then send the command.
* `okFrame` (`Producer.handle_response` with `response == nsq.OK`):
  `popleft` the deque — raising `IndexError` (`none`) when the deque is
  empty — and resolve that promise with the response.
* `errorFrame` (`Producer.handle_error` → `Producer._clear_responses`):
  remove the queue and fail every pending promise, in deque order. -/
def ProducerSession.step (s : ProducerSession) :
    ProducerEvent → Option ProducerSession
  | .publish =>
    some { s with queue := s.queue ++ [s.next_promise],
                  next_promise := s.next_promise + 1 }
  | .okFrame =>
    match s.queue with
    | [] => none
    | p :: rest =>
      some { s with queue := rest, resolved := s.resolved ++ [(p, .ok)] }
  | .errorFrame =>
    some { s with queue := [],
                  resolved := s.resolved ++ s.queue.map (fun p => (p, .failed)) }

/-- Run a sequence of events on a session. -/
def ProducerSession.run (s : ProducerSession) :
    List ProducerEvent → Option ProducerSession
  | [] => some s
  | e :: rest =>
    match s.step e with
    | none => none
    | some s' => s'.run rest

example :
    ProducerSession.init.run
        [.publish, .publish, .okFrame, .publish, .errorFrame] =
      some { queue := [], resolved := [(0, .ok), (1, .failed), (2, .failed)],
             next_promise := 3 } := rfl

/-- The session FIFO invariant: the already-resolved promises, in
resolution order, followed by the pending deque, are exactly the promises
in publish order. -/
def ProducerSession.fifoInv (s : ProducerSession) : Prop :=
  s.resolved.map Prod.fst ++ s.queue = List.range s.next_promise

theorem map_fst_failed (q : List Nat) :
    (q.map (fun p => (p, PromiseResult.failed))).map Prod.fst = q := by
  induction q with
  | nil => rfl
  | cons p rest ih => simp [ih]

theorem ProducerSession.step_fifoInv (s s' : ProducerSession)
    (e : ProducerEvent) (hinv : s.fifoInv) (hstep : s.step e = some s') :
    s'.fifoInv := by
  cases e with
  | publish =>
    simp only [ProducerSession.step, Option.some.injEq] at hstep
    subst hstep
    simp only [ProducerSession.fifoInv] at hinv ⊢
    rw [← List.append_assoc, hinv, List.range_succ]
  | okFrame =>
    cases hq : s.queue with
    | nil => simp [ProducerSession.step, hq] at hstep
    | cons p rest =>
      simp only [ProducerSession.step, hq, Option.some.injEq] at hstep
      subst hstep
      simp only [ProducerSession.fifoInv] at hinv ⊢
      rw [← hinv, hq]
      simp
  | errorFrame =>
    simp only [ProducerSession.step, Option.some.injEq] at hstep
    subst hstep
    simp only [ProducerSession.fifoInv] at hinv ⊢
    rw [← hinv]
    simp only [List.map_append, List.append_nil, map_fst_failed]

theorem ProducerSession.run_fifoInv (es : List ProducerEvent) :
    ∀ s s' : ProducerSession, s.fifoInv → s.run es = some s' → s'.fifoInv := by
  induction es with
  | nil =>
    intro s s' hinv hrun
    simp only [ProducerSession.run, Option.some.injEq] at hrun
    subst hrun
    exact hinv
  | cons e rest ih =>
    intro s s' hinv hrun
    simp only [ProducerSession.run] at hrun
    cases hstep : s.step e with
    | none => rw [hstep] at hrun; simp at hrun
    | some s₁ =>
      rw [hstep] at hrun
      exact ih s₁ s' (ProducerSession.step_fifoInv s s₁ e hinv hstep) hrun

/-- C3: on every producer session, response promises resolve in publish
order.  For every reachable session state: the resolved promises followed
by the pending deque are exactly the promises in publish order (so the
resolution order is a prefix of the publish order); `publish` appends its
fresh promise at the tail of the FIFO deque; an `OK` frame satisfies
exactly the head promise of the deque; and an ERROR frame fails every
pending promise. -/
theorem producer_publish_fifo (es : List ProducerEvent) (s : ProducerSession)
    (h : ProducerSession.init.run es = some s) :
    (s.resolved.map Prod.fst ++ s.queue = List.range s.next_promise) ∧
    (s.resolved.map Prod.fst <+: List.range s.next_promise) ∧
    (s.step .publish =
      some ⟨s.queue ++ [s.next_promise], s.resolved, s.next_promise + 1⟩) ∧
    (∀ p rest, s.queue = p :: rest → s.step .okFrame =
      some ⟨rest, s.resolved ++ [(p, .ok)], s.next_promise⟩) ∧
    (s.step .errorFrame =
      some ⟨[], s.resolved ++ s.queue.map (fun q => (q, .failed)),
        s.next_promise⟩) := by
  have hinv : s.fifoInv :=
    ProducerSession.run_fifoInv es ProducerSession.init s (by rfl) h
  refine ⟨hinv, ⟨s.queue, hinv⟩, rfl, ?_, rfl⟩
  intro p rest hq
  simp [ProducerSession.step, hq]

/-- Witness for C3 at a concrete trace of two publishes, one `OK` frame,
another publish and an ERROR frame. -/
theorem producer_publish_fifo_witness :
    ({ queue := [], resolved := [(0, .ok), (1, .failed), (2, .failed)],
       next_promise := 3 } : ProducerSession).resolved.map Prod.fst ++
      ({ queue := [], resolved := [(0, .ok), (1, .failed), (2, .failed)],
         next_promise := 3 } : ProducerSession).queue = List.range 3 :=
  (producer_publish_fifo
    [.publish, .publish, .okFrame, .publish, .errorFrame] _ rfl).1

/-! ## Consumer RDY redistribution (gnsq/consumer.py)

`Consumer._redistribute_ready_state` computes a RDY target for every
connection in `self._connections` (a dict from connection to state) and
sends it.  The dict of targets is embedded as an association list keyed by
connection identity, with Python-dict assignment semantics (`dset`
overwrites the first matching key or appends a fresh one).  RDY values are
embedded as `Int` (Python ints); `//` and `%` on Python ints with a
positive divisor are `Int.ediv` / `Int.emod`. -/

/-- Connection states (gnsq/states.py). -/
def INIT : Nat := 0

def CONNECTED : Nat := 1

def DISCONNECTED : Nat := 2

def RUNNING : Nat := 3

def BACKOFF : Nat := 4

def THROTTLED : Nat := 5

def CLOSED : Nat := 6

/-- One entry of `Consumer._connections`: the connection identity (dict
key), its consumer-side state, and whether
`(now - conn.last_message) > self.low_ready_idle_timeout` held when the
ready state was computed. -/
structure Conn where
  cid : Nat
  state : Nat
  idle : Bool
  deriving Repr, DecidableEq

/-- The `ready_state` dict being built: an association list from
connection identity to RDY count. -/
abbrev ReadyState := List (Nat × Int)

/-- Python dict assignment `d[k] = v`: overwrite the first binding of `k`,
or append a fresh binding. -/
def dset : ReadyState → Nat → Int → ReadyState
  | [], k, v => [(k, v)]
  | (k', v') :: rest, k, v =>
    if k' = k then (k, v) :: rest else (k', v') :: dset rest k v

/-- Python dict read `d[k]` (0 when absent; reads here only ever hit
present keys). -/
def dget : ReadyState → Nat → Int
  | [], _ => 0
  | (k', v') :: rest, k => if k' = k then v' else dget rest k

/-- The keys of the dict. -/
def dkeys (d : ReadyState) : List Nat := d.map Prod.fst

/-- Embeds `sum(ready_state.values())`, and the total RDY the consumer advertises. -/
def dsum (d : ReadyState) : Int := (d.map Prod.snd).sum

/-- The non-BACKOFF connections: the `active` list collected by the first
loop of `Consumer._get_unsaturated_ready_state`, in dict order (before the
shuffle). -/
def unsaturatedActive (conns : List Conn) : List Conn :=
  conns.filter (fun c => ! (c.state == BACKOFF))

/-- Embeds `Consumer._get_unsaturated_ready_state`: BACKOFF connections get RDY 0;
the remaining (`active`) connections are shuffled, those beyond the first
`max_in_flight` get RDY 0, and the first `max_in_flight` get RDY 1.
`random.shuffle(active)` is embedded by taking the shuffled list as the
argument `shuffled`; theorems require it to be a permutation of
`unsaturatedActive conns`. -/
def getUnsaturatedReadyState (conns : List Conn) (shuffled : List Conn)
    (max_in_flight : Nat) : ReadyState :=
  let ready_state := (conns.filter (fun c => c.state == BACKOFF)).foldl
      (fun d c => dset d c.cid 0) []
  let ready_state := (shuffled.drop max_in_flight).foldl
      (fun d c => dset d c.cid 0) ready_state
  (shuffled.take max_in_flight).foldl (fun d c => dset d c.cid 1) ready_state

/-- A connection the first loop of `Consumer._get_saturated_ready_state`
assigns directly (BACKOFF, INIT, THROTTLED, or idle). -/
def saturatedAssigns (c : Conn) : Bool :=
  c.state == BACKOFF || (c.state == INIT || c.state == THROTTLED) || c.idle

/-- The RDY count the first loop assigns to such a connection. -/
def saturatedPre (c : Conn) : Int :=
  if c.state == BACKOFF then 0 else 1

/-- The dict after the first loop of
`Consumer._get_saturated_ready_state`. -/
def saturatedFirstPass (conns : List Conn) : ReadyState :=
  conns.foldl (fun d c =>
    if c.state == BACKOFF then dset d c.cid 0
    else if c.state == INIT || c.state == THROTTLED then dset d c.cid 1
    else if c.idle then dset d c.cid 1
    else d) []

/-- The `active` list collected by that loop: connections hitting the
final `else` branch. -/
def saturatedActive (conns : List Conn) : List Conn :=
  conns.filter (fun c => ! saturatedAssigns c)

/-- Embeds `Consumer._get_saturated_ready_state`: after the first loop, if no
connection is active the dict is returned as is; otherwise
`ready_available = max_in_flight - sum(ready_state.values())` is split
evenly (`//`) over the active connections, and the remainder
(`ready_available % len(active)`) is handed out as `+= 1` to
`random.sample(active, remainder)`, embedded by the argument `sampled`
(theorems require it to be a subset of the active connections of the
remainder's size). -/
def getSaturatedReadyState (conns : List Conn) (sampled : List Conn)
    (max_in_flight : Nat) : ReadyState :=
  let ready_state := saturatedFirstPass conns
  let active := saturatedActive conns
  if active.isEmpty then ready_state
  else
    let ready_available : Int := (max_in_flight : Int) - dsum ready_state
    let connection_max_in_flight : Int := ready_available.ediv active.length
    let ready_state := active.foldl
        (fun d c => dset d c.cid connection_max_in_flight) ready_state
    sampled.foldl (fun d c => dset d c.cid (dget d c.cid + 1)) ready_state

/-- The regime selection of `Consumer._redistribute_ready_state`:
oversubscribed when `len(self._connections) > self.max_in_flight`,
saturated otherwise. -/
def redistributeReadyState (conns : List Conn) (shuffled sampled : List Conn)
    (max_in_flight : Nat) : ReadyState :=
  if conns.length > max_in_flight then
    getUnsaturatedReadyState conns shuffled max_in_flight
  else
    getSaturatedReadyState conns sampled max_in_flight

example :
    getSaturatedReadyState [⟨1, RUNNING, false⟩, ⟨2, INIT, false⟩] [] 3 =
      [(2, 1), (1, 2)] := rfl

example :
    getUnsaturatedReadyState
      [⟨1, RUNNING, false⟩, ⟨2, BACKOFF, false⟩, ⟨3, THROTTLED, false⟩]
      [⟨3, THROTTLED, false⟩, ⟨1, RUNNING, false⟩] 1 =
      [(2, 0), (1, 0), (3, 1)] := rfl

theorem dkeys_append (d e : ReadyState) : dkeys (d ++ e) = dkeys d ++ dkeys e := by
  simp [dkeys]

theorem dsum_append (d e : ReadyState) : dsum (d ++ e) = dsum d + dsum e := by
  simp [dsum]

theorem dkeys_map_value (f : Conn → Int) (cs : List Conn) :
    dkeys (cs.map (fun c => (c.cid, f c))) = cs.map Conn.cid := by
  simp [dkeys, List.map_map]

theorem dsum_map_value (f : Conn → Int) (cs : List Conn) :
    dsum (cs.map (fun c => (c.cid, f c))) = (cs.map f).sum := by
  simp [dsum, List.map_map]
  rfl

theorem dset_fresh (d : ReadyState) (k : Nat) (v : Int) (h : k ∉ dkeys d) :
    dset d k v = d ++ [(k, v)] := by
  induction d with
  | nil => rfl
  | cons p rest ih =>
    obtain ⟨k', v'⟩ := p
    simp only [dkeys, List.map_cons, List.mem_cons] at h
    push_neg at h
    simp only [dset, List.cons_append]
    rw [if_neg (fun he => h.1 he.symm)]
    rw [ih (by simpa [dkeys] using h.2)]

theorem dkeys_dset_mem (d : ReadyState) (k : Nat) (v : Int)
    (h : k ∈ dkeys d) : dkeys (dset d k v) = dkeys d := by
  induction d with
  | nil => simp [dkeys] at h
  | cons p rest ih =>
    obtain ⟨k', v'⟩ := p
    by_cases he : k' = k
    · subst he
      simp [dset, dkeys]
    · simp only [dset, if_neg he, dkeys, List.map_cons]
      simp only [dkeys, List.map_cons, List.mem_cons] at h
      rcases h with h1 | h2
      · exact absurd h1.symm he
      · simpa [dkeys] using ih (by simpa [dkeys] using h2)

theorem dsum_dset_incr (d : ReadyState) (k : Nat) (h : k ∈ dkeys d) :
    dsum (dset d k (dget d k + 1)) = dsum d + 1 := by
  induction d with
  | nil => simp [dkeys] at h
  | cons p rest ih =>
    obtain ⟨k', v'⟩ := p
    by_cases he : k' = k
    · subst he
      have hstep : dset ((k', v') :: rest) k' (dget ((k', v') :: rest) k' + 1)
          = (k', v' + 1) :: rest := by
        simp [dset, dget]
      rw [hstep]
      simp only [dsum, List.map_cons, List.sum_cons]
      ring
    · simp only [dset, dget, if_neg he]
      simp only [dsum, List.map_cons, List.sum_cons]
      simp only [dkeys, List.map_cons, List.mem_cons] at h
      rcases h with h1 | h2
      · exact absurd h1.symm he
      · have := ih (by simpa [dkeys] using h2)
        simp only [dsum] at this
        rw [this]
        ring

theorem foldl_dset_fresh (p : Conn → Bool) (f : Conn → Int) :
    ∀ (cs : List Conn) (d : ReadyState),
      (∀ c ∈ cs, c.cid ∉ dkeys d) → (cs.map Conn.cid).Nodup →
      cs.foldl (fun d c => if p c then dset d c.cid (f c) else d) d =
        d ++ (cs.filter p).map (fun c => (c.cid, f c)) := by
  intro cs
  induction cs with
  | nil => intro d _ _; simp
  | cons c rest ih =>
    intro d hfresh hnd
    simp only [List.map_cons, List.nodup_cons] at hnd
    simp only [List.foldl_cons]
    by_cases hp : p c
    · rw [if_pos hp, dset_fresh d c.cid (f c) (hfresh c (by simp))]
      rw [ih (d ++ [(c.cid, f c)]) ?_ hnd.2]
      · simp [List.filter_cons, hp]
      · intro c' hc'
        rw [dkeys_append]
        simp only [List.mem_append, not_or]
        refine ⟨hfresh c' (by simp [hc']), ?_⟩
        simp only [dkeys, List.map_cons, List.map_nil, List.mem_cons,
          List.not_mem_nil, or_false]
        intro he
        exact hnd.1 (he ▸ List.mem_map_of_mem Conn.cid hc')
    · rw [if_neg hp, ih d (fun c' hc' => hfresh c' (by simp [hc'])) hnd.2]
      simp [List.filter_cons, hp]

theorem foldl_dset_fresh_all (f : Conn → Int) (cs : List Conn)
    (d : ReadyState) (hfresh : ∀ c ∈ cs, c.cid ∉ dkeys d)
    (hnd : (cs.map Conn.cid).Nodup) :
    cs.foldl (fun d c => dset d c.cid (f c)) d =
      d ++ cs.map (fun c => (c.cid, f c)) := by
  have h := foldl_dset_fresh (fun _ => true) f cs d hfresh hnd
  simpa using h

theorem foldl_dset_incr :
    ∀ (cs : List Conn) (d : ReadyState), (∀ c ∈ cs, c.cid ∈ dkeys d) →
      dsum (cs.foldl (fun d c => dset d c.cid (dget d c.cid + 1)) d) =
        dsum d + cs.length := by
  intro cs
  induction cs with
  | nil => intro d _; simp
  | cons c rest ih =>
    intro d hmem
    simp only [List.foldl_cons]
    rw [ih _ ?_]
    · rw [dsum_dset_incr d c.cid (hmem c (by simp))]
      simp only [List.length_cons]
      push_cast
      ring
    · intro c' hc'
      rw [dkeys_dset_mem d c.cid _ (hmem c (by simp))]
      exact hmem c' (by simp [hc'])

theorem sum_map_le_length (f : Conn → Int) (cs : List Conn)
    (h : ∀ c ∈ cs, f c ≤ 1) : (cs.map f).sum ≤ cs.length := by
  induction cs with
  | nil => simp
  | cons c rest ih =>
    simp only [List.map_cons, List.sum_cons, List.length_cons]
    have h1 := ih (fun c' hc' => h c' (by simp [hc']))
    have h2 := h c (by simp)
    push_cast
    linarith

theorem cid_inj (conns : List Conn) (hnd : (conns.map Conn.cid).Nodup)
    {c c' : Conn} (hc : c ∈ conns) (hc' : c' ∈ conns) (h : c.cid = c'.cid) :
    c = c' :=
  List.inj_on_of_nodup_map hnd hc hc' h

/-- A connection collected on the `else` side of a filter has a key fresh
for the dict built from the filter side (keys of `conns` are distinct). -/
theorem mem_filter_not_dkeys (conns : List Conn)
    (hnd : (conns.map Conn.cid).Nodup) (p : Conn → Bool) {c : Conn}
    (hc : c ∈ conns.filter (fun c => ! p c)) :
    c.cid ∉ (conns.filter p).map Conn.cid := by
  intro hmem
  obtain ⟨c', hc', he⟩ := List.mem_map.mp hmem
  have hc'conns : c' ∈ conns := List.mem_of_mem_filter hc'
  have hcconns : c ∈ conns := List.mem_of_mem_filter hc
  have heq : c' = c := cid_inj conns hnd hc'conns hcconns he
  subst heq
  have h1 : p c' = true := (List.mem_filter.mp hc').2
  have h2 : (! p c') = true := (List.mem_filter.mp hc).2
  simp [h1] at h2

theorem dsum_map_const (v : Int) (cs : List Conn) :
    dsum (cs.map (fun c => (c.cid, v))) = cs.length * v := by
  induction cs with
  | nil => simp [dsum]
  | cons c rest ih =>
    simp only [dsum, List.map_cons, List.sum_cons] at ih ⊢
    rw [ih]
    simp only [List.length_cons]
    push_cast
    ring

/-- The oversubscribed regime: the advertised RDY total is the number of
connections granted RDY 1, which is at most `max_in_flight`. -/
theorem dsum_getUnsaturatedReadyState (conns shuffled : List Conn)
    (max_in_flight : Nat) (hnd : (conns.map Conn.cid).Nodup)
    (hperm : shuffled.Perm (unsaturatedActive conns)) :
    dsum (getUnsaturatedReadyState conns shuffled max_in_flight)
      ≤ max_in_flight := by
  have hshufnd : (shuffled.map Conn.cid).Nodup := by
    have hact : ((unsaturatedActive conns).map Conn.cid).Nodup :=
      hnd.sublist ((List.filter_sublist conns).map Conn.cid)
    exact (hperm.map Conn.cid).symm.nodup hact
  have hmemsh : ∀ c ∈ shuffled,
      c ∈ conns.filter (fun c => ! (c.state == BACKOFF)) := by
    intro c hc
    exact hperm.mem_iff.mp hc
  have hfreshB : ∀ c ∈ shuffled,
      c.cid ∉ (conns.filter (fun c => c.state == BACKOFF)).map Conn.cid := by
    intro c hc
    exact mem_filter_not_dkeys conns hnd _ (hmemsh c hc)
  have hsplit : (shuffled.take max_in_flight).map Conn.cid ++
      (shuffled.drop max_in_flight).map Conn.cid = shuffled.map Conn.cid := by
    rw [← List.map_append, List.take_append_drop]
  have hdisj : List.Disjoint ((shuffled.take max_in_flight).map Conn.cid)
      ((shuffled.drop max_in_flight).map Conn.cid) := by
    have hnd2 := hshufnd
    rw [← hsplit] at hnd2
    exact (List.nodup_append.mp hnd2).2.2
  simp only [getUnsaturatedReadyState]
  have h0 : (conns.filter (fun c => c.state == BACKOFF)).foldl
      (fun d c => dset d c.cid 0) [] =
      (conns.filter (fun c => c.state == BACKOFF)).map
        (fun c => (c.cid, (0 : Int))) := by
    have h := foldl_dset_fresh_all (fun _ => (0 : Int))
      (conns.filter (fun c => c.state == BACKOFF)) []
      (by intro c _; simp [dkeys])
      (hnd.sublist ((List.filter_sublist conns).map Conn.cid))
    simpa using h
  have h1 : (shuffled.drop max_in_flight).foldl (fun d c => dset d c.cid 0)
      ((conns.filter (fun c => c.state == BACKOFF)).map
        (fun c => (c.cid, (0 : Int)))) =
      (conns.filter (fun c => c.state == BACKOFF)).map
        (fun c => (c.cid, (0 : Int))) ++
      (shuffled.drop max_in_flight).map (fun c => (c.cid, (0 : Int))) := by
    have h := foldl_dset_fresh_all (fun _ => (0 : Int))
      (shuffled.drop max_in_flight)
      ((conns.filter (fun c => c.state == BACKOFF)).map
        (fun c => (c.cid, (0 : Int))))
      (by
        intro c hc
        rw [dkeys_map_value]
        exact hfreshB c (List.drop_subset _ _ hc))
      (hshufnd.sublist ((List.drop_sublist _ _).map Conn.cid))
    simpa using h
  have h2 : (shuffled.take max_in_flight).foldl (fun d c => dset d c.cid 1)
      ((conns.filter (fun c => c.state == BACKOFF)).map
        (fun c => (c.cid, (0 : Int))) ++
       (shuffled.drop max_in_flight).map (fun c => (c.cid, (0 : Int)))) =
      ((conns.filter (fun c => c.state == BACKOFF)).map
        (fun c => (c.cid, (0 : Int))) ++
       (shuffled.drop max_in_flight).map (fun c => (c.cid, (0 : Int)))) ++
      (shuffled.take max_in_flight).map (fun c => (c.cid, (1 : Int))) := by
    have h := foldl_dset_fresh_all (fun _ => (1 : Int))
      (shuffled.take max_in_flight)
      ((conns.filter (fun c => c.state == BACKOFF)).map
        (fun c => (c.cid, (0 : Int))) ++
       (shuffled.drop max_in_flight).map (fun c => (c.cid, (0 : Int))))
      (by
        intro c hc
        rw [dkeys_append, dkeys_map_value, dkeys_map_value]
        simp only [List.mem_append, not_or]
        refine ⟨hfreshB c (List.take_subset _ _ hc), ?_⟩
        exact hdisj (List.mem_map_of_mem Conn.cid hc))
      (hshufnd.sublist ((List.take_sublist _ _).map Conn.cid))
    simpa using h
  rw [h0, h1, h2]
  rw [dsum_append, dsum_append, dsum_map_const, dsum_map_const, dsum_map_const]
  have hlen : (shuffled.take max_in_flight).length ≤ max_in_flight := by
    rw [List.length_take]
    omega
  have : ((shuffled.take max_in_flight).length : Int) ≤ max_in_flight := by
    exact_mod_cast hlen
  linarith

/-- The first loop of `_get_saturated_ready_state` builds exactly the dict
assigning `saturatedPre` to the directly-assigned connections. -/
theorem saturatedFirstPass_eq (conns : List Conn)
    (hnd : (conns.map Conn.cid).Nodup) :
    saturatedFirstPass conns = (conns.filter saturatedAssigns).map
      (fun c => (c.cid, saturatedPre c)) := by
  have hext : saturatedFirstPass conns = conns.foldl
      (fun d c => if saturatedAssigns c then dset d c.cid (saturatedPre c)
        else d) [] := by
    unfold saturatedFirstPass
    refine List.foldl_ext _ _ [] ?_
    intro d c _
    cases hb : (c.state == BACKOFF) <;>
      cases hit : (c.state == INIT || c.state == THROTTLED) <;>
        cases hid : c.idle <;>
          simp [saturatedAssigns, saturatedPre, hb, hit, hid]
  rw [hext, foldl_dset_fresh saturatedAssigns saturatedPre conns []
    (by intro c _; simp [dkeys]) hnd]
  simp

theorem dkeys_saturatedFirstPass (conns : List Conn)
    (hnd : (conns.map Conn.cid).Nodup) :
    dkeys (saturatedFirstPass conns) =
      (conns.filter saturatedAssigns).map Conn.cid := by
  rw [saturatedFirstPass_eq conns hnd, dkeys_map_value]

theorem dsum_saturatedFirstPass_le (conns : List Conn)
    (hnd : (conns.map Conn.cid).Nodup) :
    dsum (saturatedFirstPass conns) ≤
      ((conns.filter saturatedAssigns).length : Int) := by
  rw [saturatedFirstPass_eq conns hnd, dsum_map_value]
  refine sum_map_le_length _ _ ?_
  intro c _
  unfold saturatedPre
  split <;> omega

/-- The saturated regime: if no connection is active, the RDY total is at
most the number of connections; otherwise the even split plus the sampled
remainder brings the total to exactly `max_in_flight`. -/
theorem dsum_getSaturatedReadyState (conns sampled : List Conn)
    (max_in_flight : Nat) (hnd : (conns.map Conn.cid).Nodup)
    (hconns : conns.length ≤ max_in_flight)
    (hsub : ∀ c ∈ sampled, c ∈ saturatedActive conns)
    (hslen : saturatedActive conns ≠ [] →
      sampled.length = (((max_in_flight : Int) -
        dsum (saturatedFirstPass conns)).emod
          ((saturatedActive conns).length : Int)).toNat) :
    dsum (getSaturatedReadyState conns sampled max_in_flight)
      ≤ max_in_flight := by
  simp only [getSaturatedReadyState]
  by_cases hA : (saturatedActive conns).isEmpty
  · rw [if_pos hA]
    calc dsum (saturatedFirstPass conns)
        ≤ ((conns.filter saturatedAssigns).length : Int) :=
          dsum_saturatedFirstPass_le conns hnd
      _ ≤ (conns.length : Int) := by
          exact_mod_cast conns.length_filter_le saturatedAssigns
      _ ≤ (max_in_flight : Int) := by exact_mod_cast hconns
  · rw [if_neg hA]
    have hAne : saturatedActive conns ≠ [] := by
      intro h
      rw [h] at hA
      exact hA rfl
    have hApos : 0 < (saturatedActive conns).length :=
      List.length_pos.mpr hAne
    have hActSub : List.Sublist (saturatedActive conns) conns :=
      List.filter_sublist conns
    have h1 : List.foldl
        (fun d c => dset d c.cid
          (((max_in_flight : Int) - dsum (saturatedFirstPass conns)).ediv
            ((saturatedActive conns).length : Int)))
        (saturatedFirstPass conns) (saturatedActive conns) =
        saturatedFirstPass conns ++ (saturatedActive conns).map
          (fun c => (c.cid,
            ((max_in_flight : Int) - dsum (saturatedFirstPass conns)).ediv
              ((saturatedActive conns).length : Int))) := by
      have h := foldl_dset_fresh_all
        (fun _ => ((max_in_flight : Int) -
          dsum (saturatedFirstPass conns)).ediv
            ((saturatedActive conns).length : Int))
        (saturatedActive conns) (saturatedFirstPass conns)
        (by
          intro c hc
          rw [dkeys_saturatedFirstPass conns hnd]
          exact mem_filter_not_dkeys conns hnd saturatedAssigns hc)
        (hnd.sublist (hActSub.map Conn.cid))
      simpa using h
    rw [h1]
    rw [foldl_dset_incr sampled _ ?_]
    · rw [dsum_append, dsum_map_const]
      have hslen' := hslen hAne
      have hemod : (0 : Int) ≤ ((max_in_flight : Int) -
          dsum (saturatedFirstPass conns)).emod
            ((saturatedActive conns).length : Int) :=
        Int.emod_nonneg _ (by exact_mod_cast hApos.ne')
      have hcast : (sampled.length : Int) = ((max_in_flight : Int) -
          dsum (saturatedFirstPass conns)).emod
            ((saturatedActive conns).length : Int) := by
        rw [hslen']
        exact Int.toNat_of_nonneg hemod
      have hdiv : ((saturatedActive conns).length : Int) *
          ((max_in_flight : Int) - dsum (saturatedFirstPass conns)).ediv
            ((saturatedActive conns).length : Int) +
          ((max_in_flight : Int) - dsum (saturatedFirstPass conns)).emod
            ((saturatedActive conns).length : Int) =
          (max_in_flight : Int) - dsum (saturatedFirstPass conns) :=
        Int.ediv_add_emod _ _
      rw [hcast]
      linarith
    · intro c hc
      rw [dkeys_append, dkeys_map_value]
      simp only [List.mem_append]
      exact Or.inr (List.mem_map_of_mem Conn.cid (hsub c hc))

/-- C1: for every connection map and every `max_in_flight ≥ 1`, the RDY
assignment computed by a consumer redistribution pass — whichever of the
oversubscribed or saturated regimes `Consumer._redistribute_ready_state`
selects — has a sum over all sessions that is at most `max_in_flight`.
The shuffle and the sample of the Python `random` module are quantified:
`shuffled` is any permutation of the non-BACKOFF connections and `sampled`
any subset of the active connections of size
`ready_available % len(active)`. -/
theorem redistribute_rdy_sum_le_max_in_flight
    (conns shuffled sampled : List Conn) (max_in_flight : Nat)
    (hmax : 1 ≤ max_in_flight)
    (hnd : (conns.map Conn.cid).Nodup)
    (hperm : shuffled.Perm (unsaturatedActive conns))
    (hsub : ∀ c ∈ sampled, c ∈ saturatedActive conns)
    (hslen : saturatedActive conns ≠ [] →
      sampled.length = (((max_in_flight : Int) -
        dsum (saturatedFirstPass conns)).emod
          ((saturatedActive conns).length : Int)).toNat) :
    dsum (redistributeReadyState conns shuffled sampled max_in_flight)
      ≤ max_in_flight := by
  unfold redistributeReadyState
  split
  · exact dsum_getUnsaturatedReadyState conns shuffled max_in_flight hnd hperm
  · next h =>
    exact dsum_getSaturatedReadyState conns sampled max_in_flight hnd
      (by omega) hsub hslen

/-- Witness for C1 at a concrete connection map (one RUNNING and one INIT
connection, `max_in_flight = 3`, saturated regime). -/
theorem redistribute_rdy_sum_le_max_in_flight_witness :
    dsum (redistributeReadyState
      [⟨1, RUNNING, false⟩, ⟨2, INIT, false⟩]
      [⟨2, INIT, false⟩, ⟨1, RUNNING, false⟩] [] 3) ≤ (3 : Nat) :=
  redistribute_rdy_sum_le_max_in_flight
    [⟨1, RUNNING, false⟩, ⟨2, INIT, false⟩]
    [⟨2, INIT, false⟩, ⟨1, RUNNING, false⟩] [] 3
    (by omega) (by decide) (by decide) (by simp) (by decide)

end Gnsq
